import Mathlib

/-!
Shallow embedding of `x-pack/plugins/infra/public/utils/filters/build.ts`
and of the unified-field-list sidebar fragment bundled with it.

JavaScript objects used as string-keyed maps (and the ES `Map`) are embedded
as association lists `List (String × α)` whose `get` returns the first
matching entry and whose `set` updates an existing key in place (preserving
its position) or appends a fresh one at the end — exactly the insertion-order
semantics of a JS `Map`.
-/

namespace KibanaBuild

/-- A data-view field: a unique name plus (optionally) the parent name it
declares through its multi-field subtype (`field.subType.multi.parent`). -/
structure DataViewField where
  name : String
  subTypeMultiParent : Option String
deriving DecidableEq, Repr

/-- A data view: a schema holding a list of fields, with an id. -/
structure DataView where
  id : String
  fields : List DataViewField
deriving DecidableEq, Repr

/-- `dataView.getFieldByName(field)`: first field of the schema with the
given name, if any. -/
def getFieldByName (dv : DataView) (fieldName : String) : Option DataViewField :=
  dv.fields.find? (fun f => f.name == fieldName)

/-- `map.get(k)` on a JS `Map` / object: value of the first entry with key
`k`.  (A JS `Map` holds each key at most once, so first-match lookup is
exact.) -/
def jsMapGet {α : Type} : List (String × α) → String → Option α
  | [], _ => none
  | p :: rest, k => if p.1 == k then some p.2 else jsMapGet rest k

/-- `map.set(k, v)` on a JS `Map`: overwrite the entry of an existing key in
place (preserving its position), otherwise append the new entry at the
end. -/
def jsMapSet {α : Type} : List (String × α) → String → α → List (String × α)
  | [], k, v => [(k, v)]
  | p :: rest, k, v =>
      if p.1 == k then (k, v) :: rest else p :: jsMapSet rest k v

/-- Query fragments produced by the raw (schema-less) branches of the
filter builders: `{exists: {field}}` and `{terms: {[field]: values}}`. -/
inductive QueryFragment where
  | existsQuery (field : String)
  | termsQuery (field : String) (values : List String)
deriving DecidableEq, Repr

/-- Filters producible by the hosts-filter helpers.  `raw` carries the
meta object (empty in the code) and the query fragment; the other
constructors stand for the opaque `@kbn/es-query` builders
`buildExistsFilter`, `buildPhraseFilter` and
`buildCombinedFilter(BooleanRelation.OR, …)`. -/
inductive BuiltFilter where
  | raw (meta : List (String × String)) (query : QueryFragment)
  | existsFilter (indexField : DataViewField) (dataView : DataView)
  | phraseFilter (indexField : DataViewField) (value : String) (dataView : DataView)
  | combinedOr (filters : List BuiltFilter) (dataView : DataView)

/-- `buildExistsHostsFilter({field, dataView})`.  Without a data view it
returns the raw `{meta: {}, query: {exists: {field}}}` object.  With one, the
code reads `dataView.getFieldByName(field)!` — a non-null assertion with no
check — so a missing field is embedded as the failure value `none`. -/
def buildExistsHostsFilter (field : String) (dataView : Option DataView) :
    Option BuiltFilter :=
  match dataView with
  | none => some (.raw [] (.existsQuery field))
  | some dv =>
    match getFieldByName dv field with
    | none => none
    | some indexField => some (.existsFilter indexField dv)

/-- `buildCombinedHostsFilter({field, values, dataView})`.  Without a data
view it returns the raw `{query: {terms: {[field]: values}}, meta: {}}`
object; with one it builds one phrase filter per value (after the same
unchecked `getFieldByName(field)!` lookup) and OR-combines them. -/
def buildCombinedHostsFilter (field : String) (values : List String)
    (dataView : Option DataView) : Option BuiltFilter :=
  match dataView with
  | none => some (.raw [] (.termsQuery field values))
  | some dv =>
    match getFieldByName dv field with
    | none => none
    | some indexField =>
      some (.combinedOr (values.map (fun v => .phraseFilter indexField v dv)) dv)

/-- Truthiness test `if (filter.meta.key)` of JS: an absent key and the
empty string are both falsy. -/
def keyTruthy : Option String → Bool
  | none => false
  | some k => !(k == "")

/-- A filter as `retrieveFieldsFromFilter` sees it: either a plain filter
(only its `meta.key` matters) or a combined filter, which additionally holds
its sub-filters in `meta.params` and is recognised by `isCombinedFilter`. -/
inductive QFilter where
  | simple (key : Option String)
  | combined (key : Option String) (params : List QFilter)
deriving Repr

/-- `filter.meta.key`. -/
def QFilter.metaKey : QFilter → Option String
  | .simple key => key
  | .combined key _ => key

/-- `fields.push(filter.meta.key)` guarded by the truthiness of the key. -/
def pushKey (fields : List String) (key : Option String) : List String :=
  match key with
  | none => fields
  | some k => if k == "" then fields else fields ++ [k]

/-- `retrieveFieldsFromFilter(filters, fields)`: walk the filters in order,
recursing into a combined filter's `meta.params` before pushing the filter's
own `meta.key` (when truthy) onto the accumulator.  The TS accumulator is
mutated in place; here it is threaded explicitly (its default value `[]` is
made explicit at every call site). -/
def retrieveFieldsFromFilter : List QFilter → List String → List String
  | [], fields => fields
  | .simple key :: rest, fields =>
      retrieveFieldsFromFilter rest (pushKey fields key)
  | .combined key params :: rest, fields =>
      retrieveFieldsFromFilter rest
        (pushKey (retrieveFieldsFromFilter params fields) key)

/-- The keys a single `meta.key` contributes: one entry when truthy,
nothing otherwise. -/
def keyList : Option String → List String
  | none => []
  | some k => if k == "" then [] else [k]

/-- The field-retrieval claim's description of the collected keys, stated
directly from its words: visiting filters in input order, a combined filter
first contributes its children's keys and then its own key (if it has one);
filters without a (truthy) key contribute nothing. -/
def retrievedKeysSpec : List QFilter → List String
  | [] => []
  | .simple key :: rest =>
      keyList key ++ retrievedKeysSpec rest
  | .combined key params :: rest =>
      (retrievedKeysSpec params ++ keyList key) ++ retrievedKeysSpec rest

end KibanaBuild

namespace KibanaSidebar

open KibanaBuild

/-- An entry of the multi-field map: `{field, isSelected}`. -/
structure MultiFieldEntry where
  field : DataViewField
  isSelected : Bool
deriving DecidableEq, Repr

/-- `getDataViewFieldSubtypeMulti(field)?.multi.parent`: the parent name the
field declares through its multi-field subtype, if any. -/
def getDataViewFieldSubtypeMultiParent (field : DataViewField) : Option String :=
  field.subTypeMultiParent

/-- The parent the grouping loop actually keeps: the declared parent after
the JS truthiness guard `if (!parent) return;` (which also drops an empty
string). -/
def fieldParent (field : DataViewField) : Option String :=
  match getDataViewFieldSubtypeMultiParent field with
  | none => none
  | some p => if p == "" then none else some p

/-- `Boolean(selectedFieldsMap?.[field.name])`: `false` when the map is
absent or lacks the name, otherwise the stored boolean. -/
def selMapLookup (selectedFieldsMap : Option (List (String × Bool)))
    (fieldName : String) : Bool :=
  match selectedFieldsMap with
  | none => false
  | some m => (jsMapGet m fieldName).getD false

/-- The body of the `allFields.forEach` loop of `calculateMultiFields`:
skip parentless fields, otherwise append `{field, isSelected}` to the
parent's bucket (`map.get(parent) ?? []` then `map.set`). -/
def addMultiField (selectedFieldsMap : Option (List (String × Bool)))
    (map : List (String × List MultiFieldEntry)) (field : DataViewField) :
    List (String × List MultiFieldEntry) :=
  match fieldParent field with
  | none => map
  | some parent =>
      let multiField : MultiFieldEntry :=
        ⟨field, selMapLookup selectedFieldsMap field.name⟩
      let value := (jsMapGet map parent).getD []
      jsMapSet map parent (value ++ [multiField])

/-- The `Map` built by `calculateMultiFields` over a present field list. -/
def calculateMultiFieldsMap (fields : List DataViewField)
    (selectedFieldsMap : Option (List (String × Bool))) :
    List (String × List MultiFieldEntry) :=
  fields.foldl (addMultiField selectedFieldsMap) []

/-- `calculateMultiFields(allFields, selectedFieldsMap)`: `undefined` when
`allFields` is null, otherwise the grouped multi-field map. -/
def calculateMultiFields (allFields : Option (List DataViewField))
    (selectedFieldsMap : Option (List (String × Bool))) :
    Option (List (String × List MultiFieldEntry)) :=
  match allFields with
  | none => none
  | some fields => some (calculateMultiFieldsMap fields selectedFieldsMap)

/-- The sidebar's search mode (`'documents' | 'text-based'`). -/
inductive SearchMode where
  | documents
  | textBased
deriving DecidableEq, Repr

/-- `useNewFieldsApi = !core.uiSettings.get(SEARCH_FIELDS_FROM_SOURCE)`. -/
def useNewFieldsApi (searchFieldsFromSourceSetting : Bool) : Bool :=
  !searchFieldsFromSourceSetting

/-- The value stored by `setMultiFieldsMap` in the sidebar's effect: when
`searchMode !== 'documents' || !useNewFieldsApi ||
stateService.creationOptions.disableMultiFieldsGroupingByParent`, the map is
set to `undefined`; otherwise to
`calculateMultiFields(allFields, selectedFieldsState.selectedFieldsMap)`. -/
def multiFieldsMapState (searchMode : SearchMode) (useNewFieldsApiValue : Bool)
    (disableMultiFieldsGroupingByParent : Bool)
    (allFields : Option (List DataViewField))
    (selectedFieldsMap : Option (List (String × Bool))) :
    Option (List (String × List MultiFieldEntry)) :=
  if searchMode != SearchMode.documents || !useNewFieldsApiValue
      || disableMultiFieldsGroupingByParent then
    none
  else
    calculateMultiFields allFields selectedFieldsMap

/-- The resolver's result: the ordered selected fields and the name-keyed
membership map (`Record<string, boolean>`). -/
structure SelectedFieldsResult where
  selectedFields : List DataViewField
  selectedFieldsMap : List (String × Bool)
deriving DecidableEq, Repr

/-- `INITIAL_SELECTED_FIELDS_RESULT`: empty sequence and empty map. -/
def INITIAL_SELECTED_FIELDS_RESULT : SelectedFieldsResult := ⟨[], []⟩

/-- One name lookup of the resolver: find a matching field in `allFields`,
or via the data view's schema when `allFields` is absent. -/
def lookupField (dataView : Option DataView)
    (allFields : Option (List DataViewField)) (n : String) :
    Option DataViewField :=
  match allFields with
  | some fs => fs.find? (fun f => f.name == n)
  | none =>
    match dataView with
    | some dv => getFieldByName dv n
    | none => none

/-- Modelled from the spec: `getSelectedFields` (the Field Selection
Resolver `resolveSelectedFields` of `./group_fields`) is imported by the
sidebar but its source is not part of this fragment.  Following the spec's
contract: for each name of the selection sequence, look up a matching field
in `allFields` (or via the data view's schema when `allFields` is absent);
a name with no match is silently dropped; matches are appended in input
order, and the companion membership map is built in the same pass; an absent
selection sequence yields the initial empty result.  The spec gives
`searchMode` no role in this contract, so it does not affect the output.
This definition is the per-name step of that pass. -/
def addSelectedField (dataView : Option DataView)
    (allFields : Option (List DataViewField)) (acc : SelectedFieldsResult)
    (n : String) : SelectedFieldsResult :=
  match lookupField dataView allFields n with
  | none => acc
  | some f =>
      ⟨acc.selectedFields ++ [f], jsMapSet acc.selectedFieldsMap f.name true⟩

/-- Modelled from the spec: the resolver proper, folding the single-name
step `addSelectedField` over the selection sequence. -/
def getSelectedFields (dataView : Option DataView)
    (workspaceSelectedFieldNames : Option (List String))
    (allFields : Option (List DataViewField)) (searchMode : SearchMode) :
    SelectedFieldsResult :=
  match workspaceSelectedFieldNames with
  | none => INITIAL_SELECTED_FIELDS_RESULT
  | some names =>
      names.foldl (addSelectedField dataView allFields)
        INITIAL_SELECTED_FIELDS_RESULT

end KibanaSidebar

namespace KibanaBuild

theorem jsMapGet_set {α : Type} (m : List (String × α)) (k : String) (v : α)
    (n : String) :
    jsMapGet (jsMapSet m k v) n = if n = k then some v else jsMapGet m n := by
  induction m with
  | nil =>
      simp only [jsMapSet, jsMapGet, beq_iff_eq]
      by_cases h : n = k
      · simp [h]
      · simp [h, Ne.symm h]
  | cons p rest ih =>
      simp only [jsMapSet]
      by_cases hpk : p.1 = k
      · simp only [hpk, beq_self_eq_true, if_true, jsMapGet, beq_iff_eq]
        by_cases hnk : n = k
        · simp [hnk]
        · simp [hnk, Ne.symm hnk]
      · simp only [beq_iff_eq, hpk, if_false, jsMapGet, ih]
        by_cases hpn : p.1 = n
        · have hnk : ¬ n = k := fun h => hpk (hpn.trans h)
          simp [hpn, hnk]
        · simp [hpn]

theorem jsMapSet_any_key {α : Type} (m : List (String × α)) (k : String)
    (v : α) (n : String) :
    (jsMapSet m k v).any (fun p => p.1 == n) =
      (m.any (fun p => p.1 == n) || (k == n)) := by
  induction m with
  | nil => simp [jsMapSet]
  | cons p rest ih =>
      simp only [jsMapSet]
      by_cases hpk : p.1 = k
      · simp only [hpk, beq_self_eq_true, if_true, List.any_cons]
        cases hkn : (k == n) <;> simp [hkn]
      · simp only [beq_iff_eq, hpk, if_false, List.any_cons, ih, Bool.or_assoc]

end KibanaBuild

namespace KibanaSidebar

open KibanaBuild

theorem none_beq_some (p : String) :
    ((none : Option String) == some p) = false := rfl

theorem some_beq_some (q p : String) :
    ((some q : Option String) == some p) = (q == p) := rfl

/-- Bucket contents across the grouping fold: folding `addMultiField` over
`fields` starting from `m` extends each bucket of `m` by the in-order
entries of the fields declaring that parent. -/
theorem calcMultiFields_go_get (sel : Option (List (String × Bool))) :
    ∀ (fields : List DataViewField)
      (m : List (String × List MultiFieldEntry)) (p : String),
      (KibanaBuild.jsMapGet (fields.foldl (addMultiField sel) m) p).getD [] =
        (KibanaBuild.jsMapGet m p).getD [] ++
          (fields.filter (fun f => fieldParent f == some p)).map
            (fun f => ⟨f, selMapLookup sel f.name⟩) := by
  intro fields
  induction fields with
  | nil => intro m p; simp
  | cons f fs ih =>
      intro m p
      simp only [List.foldl_cons, List.filter_cons]
      cases hp : fieldParent f with
      | none =>
          simp only [addMultiField, hp, none_beq_some, Bool.false_eq_true,
            if_false, ih]
      | some q =>
          simp only [addMultiField, hp, some_beq_some, ih]
          by_cases hqp : q = p
          · subst hqp
            simp only [beq_self_eq_true, if_true, List.map_cons,
              KibanaBuild.jsMapGet_set, if_pos rfl, Option.getD_some,
              List.append_assoc, List.singleton_append]
          · simp only [beq_iff_eq, hqp, Bool.false_eq_true, if_false,
              KibanaBuild.jsMapGet_set, Ne.symm hqp, if_false]

/-- Bucket existence across the grouping fold: a key is present after the
fold iff it was present before or some processed field declares it as its
parent. -/
theorem calcMultiFields_go_isSome (sel : Option (List (String × Bool))) :
    ∀ (fields : List DataViewField)
      (m : List (String × List MultiFieldEntry)) (p : String),
      (KibanaBuild.jsMapGet (fields.foldl (addMultiField sel) m) p).isSome =
        ((KibanaBuild.jsMapGet m p).isSome ||
          fields.any (fun f => fieldParent f == some p)) := by
  intro fields
  induction fields with
  | nil => intro m p; simp
  | cons f fs ih =>
      intro m p
      simp only [List.foldl_cons, List.any_cons]
      cases hp : fieldParent f with
      | none =>
          simp only [addMultiField, hp, none_beq_some, Bool.false_or, ih]
      | some q =>
          simp only [addMultiField, hp, some_beq_some, ih]
          by_cases hqp : q = p
          · subst hqp
            simp [KibanaBuild.jsMapGet_set]
          · have hqp' : (q == p) = false := beq_eq_false_iff_ne.mpr hqp
            simp only [hqp', Bool.false_or, KibanaBuild.jsMapGet_set,
              Ne.symm hqp, if_false]

/-- The resolver's fold appends, in input order, exactly the fields the
per-name lookup finds. -/
theorem sel_go_fields (dv : Option DataView)
    (af : Option (List DataViewField)) :
    ∀ (names : List String) (acc : SelectedFieldsResult),
      (names.foldl (addSelectedField dv af) acc).selectedFields =
        acc.selectedFields ++ names.filterMap (lookupField dv af) := by
  intro names
  induction names with
  | nil => intro acc; simp
  | cons n ns ih =>
      intro acc
      simp only [List.foldl_cons, List.filterMap_cons]
      cases h : lookupField dv af n with
      | none => simp only [addSelectedField, h, ih]
      | some f =>
          simp only [addSelectedField, h, ih, List.append_assoc,
            List.singleton_append]

/-- Mapping names over the lookups of a present `allFields` list gives the
input names filtered to those with a matching field. -/
theorem filterMap_lookup_names (dv : Option DataView)
    (fs : List DataViewField) :
    ∀ names : List String,
      (names.filterMap (lookupField dv (some fs))).map (fun f => f.name) =
        names.filter (fun n => fs.any (fun f => f.name == n)) := by
  intro names
  induction names with
  | nil => simp
  | cons n ns ih =>
      simp only [List.filterMap_cons, List.filter_cons, lookupField]
      cases h : fs.find? (fun f => f.name == n) with
      | none =>
          have hany : fs.any (fun f => f.name == n) = false := by
            rw [List.any_eq_false]
            intro f hf
            have := List.find?_eq_none.mp h f hf
            simpa using this
          simp only [hany, Bool.false_eq_true, if_false, ih]
      | some f =>
          have hname : (f.name == n) = true := by
            have := List.find?_some h
            simpa using this
          have hmem : f ∈ fs := List.mem_of_find?_eq_some h
          have hany : fs.any (fun g => g.name == n) = true :=
            List.any_eq_true.mpr ⟨f, hmem, hname⟩
          simp only [hany, if_true, List.map_cons, ih, eq_of_beq hname]

/-- The resolver's fold preserves agreement between the membership map and
the ordered sequence. -/
theorem sel_go_agree (dv : Option DataView)
    (af : Option (List DataViewField)) (n : String) :
    ∀ (names : List String) (acc : SelectedFieldsResult),
      acc.selectedFieldsMap.any (fun p => p.1 == n) =
          acc.selectedFields.any (fun f => f.name == n) →
      (names.foldl (addSelectedField dv af) acc).selectedFieldsMap.any
          (fun p => p.1 == n) =
        (names.foldl (addSelectedField dv af) acc).selectedFields.any
          (fun f => f.name == n) := by
  intro names
  induction names with
  | nil => intro acc hacc; simpa using hacc
  | cons m ns ih =>
      intro acc hacc
      simp only [List.foldl_cons]
      refine ih _ ?_
      cases h : lookupField dv af m with
      | none => simpa [addSelectedField, h] using hacc
      | some f =>
          simp [addSelectedField, h, KibanaBuild.jsMapSet_any_key, hacc]

end KibanaSidebar

namespace KibanaBuild

theorem pushKey_eq (fields : List String) (key : Option String) :
    pushKey fields key = fields ++ keyList key := by
  cases key with
  | none => simp [pushKey, keyList]
  | some k =>
      cases h : (k == "") <;> simp [pushKey, keyList, h]

/-- Threading an accumulator through `retrieveFieldsFromFilter` only
prepends it: the collected keys are exactly `retrievedKeysSpec`. -/
theorem retrieve_eq_append_spec :
    ∀ (filters : List QFilter) (fields : List String),
      retrieveFieldsFromFilter filters fields =
        fields ++ retrievedKeysSpec filters := by
  intro filters fields
  induction filters, fields using retrieveFieldsFromFilter.induct with
  | case1 fields => simp [retrieveFieldsFromFilter, retrievedKeysSpec]
  | case2 key rest fields ih =>
      simp only [retrieveFieldsFromFilter, retrievedKeysSpec]
      rw [ih, pushKey_eq, List.append_assoc]
  | case3 key params rest fields ih1 ih2 =>
      simp only [retrieveFieldsFromFilter, retrievedKeysSpec]
      rw [ih2, pushKey_eq, ih1]
      simp [List.append_assoc]

end KibanaBuild

namespace Claims

open KibanaBuild KibanaSidebar

/-- Claim C1 (counterexample): with search mode `documents` and multi-field
grouping by parent not disabled, but with the new fields API off (the
`discover:searchFieldsFromSource` setting enabled), the sidebar effect still
sets the multi-field map to the undefined value, while the claim requires
`calculateMultiFields`' result to be used in that case. -/
theorem multiFields_skip_claim_counterexample :
    ¬ (multiFieldsMapState SearchMode.documents false false
          (some [⟨"B", some "A"⟩]) none =
        calculateMultiFields (some [⟨"B", some "A"⟩]) none) := by
  decide

/-- Claim C1 (amended): the multi-field map is the undefined value exactly
when the search mode is not `documents`, or the new fields API is off
(`discover:searchFieldsFromSource` enabled), or the configuration disables
multi-field grouping by parent; in every other case `calculateMultiFields`
is invoked and its result is used. -/
theorem multiFieldsMapState_skip_iff (searchMode : SearchMode)
    (useNewFieldsApiValue disableMultiFieldsGroupingByParent : Bool)
    (allFields : Option (List DataViewField))
    (sel : Option (List (String × Bool))) :
    multiFieldsMapState searchMode useNewFieldsApiValue
        disableMultiFieldsGroupingByParent allFields sel =
      if searchMode ≠ SearchMode.documents ∨ useNewFieldsApiValue = false
          ∨ disableMultiFieldsGroupingByParent = true then
        none
      else
        calculateMultiFields allFields sel := by
  cases searchMode <;> cases useNewFieldsApiValue <;>
    cases disableMultiFieldsGroupingByParent <;>
    simp [multiFieldsMapState]

/-- Claim C2: for a present `allFields` and any selection map,
`calculateMultiFields` yields a map whose bucket for any parent name `p`
holds, in the iteration order of `allFields` and with no other entries,
one `(field, isSelected)` pair per field declaring `p` as its multi-field
parent — `isSelected` being the truthy lookup of the field's own name in
the selection map — and which has `p` as a key iff some field declares it;
in particular parentless fields occur in no bucket. -/
theorem calculateMultiFields_buckets (fields : List DataViewField)
    (sel : Option (List (String × Bool))) (p : String) :
    ∃ m, calculateMultiFields (some fields) sel = some m ∧
      (jsMapGet m p).getD [] =
        (fields.filter (fun f => fieldParent f == some p)).map
          (fun f => ⟨f, selMapLookup sel f.name⟩) ∧
      (jsMapGet m p).isSome =
        fields.any (fun f => fieldParent f == some p) := by
  refine ⟨calculateMultiFieldsMap fields sel, rfl, ?_, ?_⟩
  · simpa [calculateMultiFieldsMap] using
      calcMultiFields_go_get sel fields [] p
  · simpa [calculateMultiFieldsMap] using
      calcMultiFields_go_isSome sel fields [] p

/-- Claim C3: with a data view present, the hosts-filter builders perform an
unchecked lookup of the named field; when the field is missing from the
schema both builders hit the failure value (the embedded
null-dereference-class failure), i.e. they fail fast rather than produce a
filter. -/
theorem hostsFilters_missing_field_fail (field : String)
    (values : List String) (dv : DataView)
    (h : getFieldByName dv field = none) :
    buildExistsHostsFilter field (some dv) = none ∧
      buildCombinedHostsFilter field values (some dv) = none := by
  constructor
  · simp [buildExistsHostsFilter, h]
  · simp [buildCombinedHostsFilter, h]

theorem hostsFilters_missing_field_fail_witness :
    getFieldByName ⟨"dv", []⟩ "host.name" = none ∧
      (buildExistsHostsFilter "host.name" (some ⟨"dv", []⟩) = none ∧
        buildCombinedHostsFilter "host.name" ["a", "b"]
          (some ⟨"dv", []⟩) = none) :=
  ⟨rfl, hostsFilters_missing_field_fail "host.name" ["a", "b"] ⟨"dv", []⟩ rfl⟩

/-- Claim C4: for every selection-map argument, `calculateMultiFields`
applied to an absent field list returns the undefined value. -/
theorem calculateMultiFields_absent (sel : Option (List (String × Bool))) :
    calculateMultiFields none sel = none := rfl

/-- Claim C5: the resolver silently drops each selection name with no
matching field in `allFields`, and the names of the resolved sequence are
exactly the input names restricted, in their original order, to those that
do match. -/
theorem getSelectedFields_valid_subsequence (dv : Option DataView)
    (names : List String) (fs : List DataViewField) (sm : SearchMode) :
    ((getSelectedFields dv (some names) (some fs) sm).selectedFields).map
        (fun f => f.name) =
      names.filter (fun n => fs.any (fun f => f.name == n)) := by
  have h := sel_go_fields dv (some fs) names INITIAL_SELECTED_FIELDS_RESULT
  simp only [getSelectedFields]
  rw [h]
  simpa [INITIAL_SELECTED_FIELDS_RESULT] using
    filterMap_lookup_names dv fs names

/-- Claim C6: in every Selected Fields Result produced by the resolver, the
membership map and the ordered sequence agree — a name is a key of
`selectedFieldsMap` iff some field of `selectedFields` bears that name. -/
theorem getSelectedFields_map_agrees (dv : Option DataView)
    (names : Option (List String)) (fs : Option (List DataViewField))
    (sm : SearchMode) (n : String) :
    (getSelectedFields dv names fs sm).selectedFieldsMap.any
        (fun p => p.1 == n) =
      (getSelectedFields dv names fs sm).selectedFields.any
        (fun f => f.name == n) := by
  cases names with
  | none => simp [getSelectedFields, INITIAL_SELECTED_FIELDS_RESULT]
  | some ns =>
      simp only [getSelectedFields]
      exact sel_go_agree dv fs n ns INITIAL_SELECTED_FIELDS_RESULT
        (by simp [INITIAL_SELECTED_FIELDS_RESULT])

/-- Claim C7: in the map built by `calculateMultiFields`, a field that
declares itself a sub-field is a top-level key only when some field of
`allFields` declares it as its parent. -/
theorem calculateMultiFields_subfield_key_is_parent
    (fields : List DataViewField) (sel : Option (List (String × Bool)))
    (m : List (String × List MultiFieldEntry)) (f : DataViewField)
    (hm : calculateMultiFields (some fields) sel = some m)
    (hf : f ∈ fields) (hsub : fieldParent f ≠ none)
    (hkey : (jsMapGet m f.name).isSome = true) :
    ∃ g, g ∈ fields ∧ fieldParent g = some f.name := by
  simp only [calculateMultiFields, Option.some.injEq] at hm
  subst hm
  rw [calculateMultiFieldsMap, calcMultiFields_go_isSome sel fields []
    f.name] at hkey
  simp only [KibanaBuild.jsMapGet, Option.isSome_none, Bool.false_or]
    at hkey
  obtain ⟨g, hg, hgp⟩ := List.any_eq_true.mp hkey
  exact ⟨g, hg, by simpa using hgp⟩

theorem calculateMultiFields_subfield_key_is_parent_witness :
    ∃ g, g ∈ ([⟨"A", none⟩, ⟨"B", some "A"⟩, ⟨"C", some "B"⟩] :
        List DataViewField) ∧ fieldParent g = some "B" :=
  calculateMultiFields_subfield_key_is_parent
    [⟨"A", none⟩, ⟨"B", some "A"⟩, ⟨"C", some "B"⟩] none
    [("A", [⟨⟨"B", some "A"⟩, false⟩]), ("B", [⟨⟨"C", some "B"⟩, false⟩])]
    ⟨"B", some "A"⟩ (by decide) (by decide) (by decide) (by decide)

/-- Claim C8: without a data view, `buildExistsHostsFilter` returns the raw
`{meta: {}, query: {exists: {field}}}` object and
`buildCombinedHostsFilter` the raw
`{query: {terms: {[field]: values}}, meta: {}}` object, for every field
name and value list. -/
theorem hostsFilters_raw_shapes (field : String) (values : List String) :
    buildExistsHostsFilter field none =
        some (BuiltFilter.raw [] (QueryFragment.existsQuery field)) ∧
      buildCombinedHostsFilter field values none =
        some (BuiltFilter.raw [] (QueryFragment.termsQuery field values)) :=
  ⟨rfl, rfl⟩

/-- Claim C9: recomputing the Selected Fields Result and the multi-field
map on identical inputs yields structurally equal outputs — both are
deterministic pure functions of their arguments. -/
theorem derived_structures_deterministic
    (allFields : Option (List DataViewField))
    (sel : Option (List (String × Bool))) (dv : Option DataView)
    (names : Option (List String)) (fs : Option (List DataViewField))
    (sm : SearchMode) :
    calculateMultiFields allFields sel = calculateMultiFields allFields sel ∧
      getSelectedFields dv names fs sm = getSelectedFields dv names fs sm :=
  ⟨rfl, rfl⟩

/-- Claim C10: `retrieveFieldsFromFilter` extends the accumulator, in input
order, with the truthy `meta.key` of every filter, a combined filter
contributing its `meta.params` sub-filters' keys before its own key; with
the accumulator defaulted to the empty list the result is exactly those
keys. -/
theorem retrieveFieldsFromFilter_collects_keys (filters : List QFilter)
    (fields : List String) :
    retrieveFieldsFromFilter filters fields =
        fields ++ retrievedKeysSpec filters ∧
      retrieveFieldsFromFilter filters [] = retrievedKeysSpec filters := by
  refine ⟨retrieve_eq_append_spec filters fields, ?_⟩
  simpa using retrieve_eq_append_spec filters []

end Claims
